import Mathlib

/-!
Shallow embedding of PyMVPA's `mvpa/misc/stats.py` and `mvpa/misc/support.py`.

Numeric values carried by the Python code (numpy floats) are modelled as
rationals `ℚ` wherever the code only adds, subtracts, multiplies and divides;
the Euclidean norm used by `DSMatrix` (a square root) is modelled over `ℝ`.
Python exceptions are modelled with `Except String`; a Python `while` loop
whose body may fail to make progress is modelled with explicit fuel, where
`none` at every fuel means the loop does not terminate.
-/

namespace PyMVPA

/-! ### chisquare (mvpa/misc/stats.py, lines 21-81)

`obs` is a matrix (list of rows).  The `exp` argument of the Python function
is either one of the strings `'uniform'`, `'indep_rows'`, `'indep_cols'` or an
explicit matrix; this is the `ExpSpec` sum type.  An unknown string raises
`ValueError` before any computation and is outside the valid specifications
the claims quantify over. -/

inductive ExpSpec
  | uniform
  | indepRows
  | indepCols
  | explicit (e : List (List ℚ))
  deriving DecidableEq

/-- Number of rows, `obs.shape[0]`. -/
def nrows (obs : List (List ℚ)) : Nat := obs.length

/-- Number of columns, `obs.shape[1]` (length of the first row). -/
def ncols (obs : List (List ℚ)) : Nat := (obs.headD []).length

/-- `np.sum(obs)`: total number of observations. -/
def nobs (obs : List (List ℚ)) : ℚ := (obs.map List.sum).sum

/-- `np.sum(obs, axis=0)[j]`: sum of column `j`. -/
def colSum (obs : List (List ℚ)) (j : Nat) : ℚ :=
  (obs.map (fun r => r.getD j 0)).sum

/-- Rectangular non-empty matrix: the shape numpy's `np.array(obs)` gives a
genuine 2-d contingency table. -/
def Rect (m : List (List ℚ)) : Prop :=
  m ≠ [] ∧ (m.headD []).length ≠ 0 ∧ ∀ r ∈ m, r.length = (m.headD []).length

instance (m : List (List ℚ)) : Decidable (Rect m) := by
  unfold Rect; exact inferInstance

/-- Expected-value matrix computed by `chisquare` for each specification:
`'uniform'` gives `nobs/prod(shape)` everywhere, `'indep_rows'` gives
`colSum j / nrows`, `'indep_cols'` gives `rowSum i / ncols`, and an explicit
matrix is used as given. -/
def expMat (obs : List (List ℚ)) : ExpSpec → List (List ℚ)
  | ExpSpec.uniform =>
      obs.map (fun r => r.map (fun _ => nobs obs / ((nrows obs : ℚ) * (ncols obs : ℚ))))
  | ExpSpec.indepRows =>
      obs.map (fun r => (List.range r.length).map (fun j => colSum obs j / (nrows obs : ℚ)))
  | ExpSpec.indepCols =>
      obs.map (fun r => r.map (fun _ => r.sum / (ncols obs : ℚ)))
  | ExpSpec.explicit e => e

/-- `exp.shape == obs.shape` for the explicit-matrix assertion. -/
def sameShape (a b : List (List ℚ)) : Bool :=
  a.length == b.length && (a.zip b).all (fun p => p.1.length == p.2.length)

/-- The assertion `assert(exp.shape == obs.shape)` only guards the
explicit-matrix case. -/
def specShapeOk (obs : List (List ℚ)) : ExpSpec → Bool
  | ExpSpec.explicit e => sameShape e obs
  | _ => true

/-- All cells of the table, paired with their expected values, in row-major
order (`(observed, expected)` pairs). -/
def chisqCells (obs expm : List (List ℚ)) : List (ℚ × ℚ) :=
  ((obs.zip expm).map (fun rr => rr.1.zip rr.2)).flatten

/-- The cells with nonzero expected value (`exp_nonzeros` in the source). -/
def chisqNZ (obs : List (List ℚ)) (spec : ExpSpec) : List (ℚ × ℚ) :=
  (chisqCells obs (expMat obs spec)).filter (fun p => decide (¬ p.2 = 0))

/-- The cells with zero expected value (`exp_zeros` in the source). -/
def chisqZeros (obs : List (List ℚ)) (spec : ExpSpec) : List (ℚ × ℚ) :=
  (chisqCells obs (expMat obs spec)).filter (fun p => decide (p.2 = 0))

/-- `chisquare(obs, exp)`: returns the Pearson statistic together with the
degrees-of-freedom argument `np.sum(exp_nonzeros) - 1` that the code hands to
`scipy.stats.chisqprob` (the chi-square tail probability itself is an external
scipy primitive, so the returned "p-value" is modelled by that argument). -/
def chisquare (obs : List (List ℚ)) (spec : ExpSpec) : Except String (ℚ × Int) :=
  if specShapeOk obs spec then
    if (chisqZeros obs spec).length ≠ 0 ∧ ∃ p ∈ chisqZeros obs spec, ¬ p.1 = 0 then
      Except.error "chisquare: Expected values have 0-values, but there are actual observations -- chi^2 cannot be computed"
    else
      Except.ok (((chisqNZ obs spec).map (fun p => (p.1 - p.2) ^ 2 / p.2)).sum,
                 ((chisqNZ obs spec).length : Int) - 1)
  else Except.error "AssertionError"

/-! ### DSMatrix with the euclidean metric (mvpa/misc/stats.py, lines 84-226)

`data_vectors` is the m-by-n exemplar collection, one row per exemplar (the
1-d special case of the source stores one scalar per exemplar; it is the n=1
instance of the same formula, since `np.linalg.norm` of a length-1 difference
equals the absolute difference).  Entries are real because the Euclidean norm
takes a square root. -/

/-- `np.linalg.norm(v)`: Euclidean norm of a vector. -/
noncomputable def euclidNorm (v : List ℝ) : ℝ :=
  Real.sqrt ((v.map (fun x => x ^ 2)).sum)

/-- `DSMatrix.__init__` with `metric='euclidean'`: the full dissimilarity
matrix, entry (i,j) being the norm of the difference of exemplars i and j. -/
noncomputable def ds_full_matrix (dv : List (List ℝ)) : List (List ℝ) :=
  dv.map (fun ri => dv.map (fun rj => euclidNorm (List.zipWith (fun a b => a - b) ri rj)))

open Classical in
/-- Step 1 of `get_vector_form`: `orig_dsmatrix[orig_dsmatrix == 0] = -1`. -/
noncomputable def ds_sentinel (m : List (List ℝ)) : List (List ℝ) :=
  m.map (fun r => r.map (fun x => if x = 0 then (-1 : ℝ) else x))

/-- Zero out the first `i` entries of a row (the part below the diagonal). -/
def zeroFirstN : Nat → List ℝ → List ℝ
  | 0, r => r
  | _ + 1, [] => []
  | n + 1, _ :: xs => 0 :: zeroFirstN n xs

/-- Rows of `np.triu(m)`: row `i` has its first `i` entries replaced by 0. -/
def triuRows : Nat → List (List ℝ) → List (List ℝ)
  | _, [] => []
  | i, r :: rs => zeroFirstN i r :: triuRows (i + 1) rs

open Classical in
/-- Step 3 of `get_vector_form`: `orig_tri[abs(orig_tri) > 0]`, numpy boolean
indexing in row-major order. -/
noncomputable def selectNonzeroAbs (l : List ℝ) : List ℝ :=
  (l.map (fun x => if |x| > 0 then [x] else [])).flatten

open Classical in
/-- `DSMatrix.get_vector_form` applied to the full matrix: sentinel
substitution, upper triangle, selection of entries with nonzero absolute
value, and restoration of the sentinel back to 0.  The final `vector_form[0]`
of the source extracts the single row of the 1-by-k matrix that numpy boolean
indexing produced, which is this list. -/
noncomputable def get_vector_form (m : List (List ℝ)) : List ℝ :=
  ((selectNonzeroAbs ((triuRows 0 (ds_sentinel m)).flatten)).map
    (fun x => if x = -1 then (0 : ℝ) else x))

/-! ### transform_with_boxcar (mvpa/misc/support.py, lines 46-82)

`data` is a list of slices along the leading axis (for 1-d data, a list of
numbers); `fx` is the reduction applied with `axis=0` to each window. -/

/-- Default reducer `np.mean` for 1-d data. -/
def meanQ (l : List ℚ) : ℚ := l.sum / (l.length : ℚ)

/-- `transform_with_boxcar(data, startpoints, boxlength, offset, fx)`. -/
def transform_with_boxcar {α β : Type} (data : List α) (startpoints : List Int)
    (boxlength : Nat) (offset : Int) (fx : List α → β) : Except String (List β) :=
  if boxlength < 1 then Except.error "Boxlength lower than 1 makes no sense."
  else if startpoints.any (fun sp =>
      decide ((data.length : Int) - 1 < sp + offset + (boxlength : Int) - 1)
      || decide (sp + offset < 0)) then
    Except.error "Illegal box"
  else
    Except.ok (startpoints.map (fun sp => fx ((data.drop (sp + offset).toNat).take boxlength)))

/-! ### version_to_tuple / SmartVersion (mvpa/misc/support.py, lines 213-318)

The splitting regex `(?P<numeric>[0-9]*)(?P<alpha>[~+-]*[A-Za-z]*)(?P<suffix>.*)`
has every group optional, so `re.search` always matches at position 0 and the
match is the greedy run of each character class in turn; the `else` branch of
`version_to_tuple`'s loop is unreachable.  The `while` loop is modelled with
fuel: when the regex extracts neither a numeric nor an alpha group the suffix
is unchanged and the Python loop spins forever, which the model renders as
`none` at every fuel. -/

/-- A parsed version component: an integer or a literal string. -/
inductive VTok
  | int (n : Int)
  | str (s : String)
  deriving DecidableEq, Repr

/-- Character class `[~+-]`. -/
def isPM (c : Char) : Bool := c == '~' || c == '+' || c == '-'

/-- Numeric value of a digit run. -/
def digitsVal (l : List Char) : Int :=
  ((l.foldl (fun a c => a * 10 + (c.toNat - '0'.toNat)) 0 : Nat) : Int)

/-- One `regex.search(suffix)` step: the greedy digit run, the greedy
`[~+-]*[A-Za-z]*` run, and the remaining suffix. -/
def regexSplit (s : List Char) : List Char × List Char × List Char :=
  let num := s.takeWhile Char.isDigit
  let r1 := s.dropWhile Char.isDigit
  let pm := r1.takeWhile isPM
  let r2 := r1.dropWhile isPM
  let al := r2.takeWhile Char.isAlpha
  let r3 := r2.dropWhile Char.isAlpha
  (num, pm ++ al, r3)

/-- Tokens contributed by one regex step (numeric group first, then alpha). -/
def regexToks (num alpha : List Char) : List VTok :=
  (if num.isEmpty then [] else [VTok.int (digitsVal num)])
    ++ (if alpha.isEmpty then [] else [VTok.str (String.mk alpha)])

/-- The `while suffix != ''` loop of `version_to_tuple`, with fuel. -/
def segLoop : Nat → List Char → Option (List VTok)
  | _, [] => some []
  | 0, _ :: _ => none
  | n + 1, c :: cs =>
      (segLoop n (regexSplit (c :: cs)).2.2).map
        (fun rest => regexToks (regexSplit (c :: cs)).1 (regexSplit (c :: cs)).2.1 ++ rest)

/-- The whitespace characters Python's `int()` strips (the `str.isspace`
set: space, tab, newline, carriage return, vertical tab, form feed). -/
def pyIsSpace (c : Char) : Bool :=
  c == ' ' || c == '\t' || c == '\n' || c == '\r' || c == '\x0b' || c == '\x0c'

/-- Sign-and-digit-run core of Python `int(x)`. -/
def pyIntCore (sign : Int) (ds : List Char) : Option Int :=
  if ds.isEmpty then none
  else if ds.all Char.isDigit then some (sign * digitsVal ds) else none

/-- Python `int(x)` (succeeds or fails like the `try` of the source):
leading and trailing whitespace is stripped, then an optional sign must be
followed by a non-empty digit run. -/
def parsePyInt (s : List Char) : Option Int :=
  match ((s.dropWhile pyIsSpace).reverse.dropWhile pyIsSpace).reverse with
  | '-' :: ds => pyIntCore (-1) ds
  | '+' :: ds => pyIntCore 1 ds
  | ds => pyIntCore 1 ds

/-- Tokens of one '.'-separated segment: the `int` fast path, falling back to
the regex loop. -/
def segTokens (fuel : Nat) (seg : List Char) : Option (List VTok) :=
  match parsePyInt seg with
  | some k => some [VTok.int k]
  | none => segLoop fuel seg

/-- Python `v.split('.')`. -/
def splitDot : List Char → List (List Char)
  | [] => [[]]
  | c :: rest =>
      if c = '.' then [] :: splitDot rest
      else
        match splitDot rest with
        | [] => [[c]]
        | seg :: segs => (c :: seg) :: segs

/-- Token lists of all segments, concatenated. -/
def vttSegs (fuel : Nat) : List (List Char) → Option (List VTok)
  | [] => some []
  | x :: r => (segTokens fuel x).bind (fun t => (vttSegs fuel r).map (fun ts => t ++ ts))

/-- `version_to_tuple(v)` with explicit fuel for the splitting loop. -/
def versionToTupleFuel (fuel : Nat) (v : String) : Option (List VTok) :=
  vttSegs fuel (splitDot v.toList)

/-- `version_to_tuple(v)`: fuel `|v|+1` suffices for every input on which the
Python loop terminates, since each productive iteration consumes at least one
character of the segment. -/
def version_to_tuple (v : String) : Option (List VTok) :=
  versionToTupleFuel (v.toList.length + 1) v

/-- Case-insensitive literal match of `p` against the start of `t`. -/
def startsL : List Char → List Char → Bool
  | [], _ => true
  | _ :: _, [] => false
  | a :: ps, b :: ts => a == b.toLower && startsL ps ts

/-- `regex_prerelease.match(y)`: `~|-?dev|-?rc|-?svn|-?pre|-?beta|-?alpha`
with `re.I`, anchored at the start of the token. -/
def isPrerelease (t : String) : Bool :=
  match t.toList with
  | '~' :: _ => true
  | l =>
      let u := match l with
        | '-' :: r => r
        | r => r
      startsL "dev".toList u || startsL "rc".toList u || startsL "svn".toList u
        || startsL "pre".toList u || startsL "beta".toList u || startsL "alpha".toList u

/-- Python 2 `cmp` on integers. -/
def cmpInt (a b : Int) : Int := if a < b then -1 else if a = b then 0 else 1

/-- Python 2 `cmp` on strings: lexicographic by character code. -/
def cmpChars : List Char → List Char → Int
  | [], [] => 0
  | [], _ :: _ => -1
  | _ :: _, [] => 1
  | a :: ra, b :: rb => if a < b then -1 else if b < a then 1 else cmpChars ra rb

/-- `SmartVersion.__cmp__`'s position-wise walk over the two token tuples.
Exhaustion on one side against an integer or non-pre-release string makes the
shorter side smaller; against a pre-release marker it makes the longer side
smaller.  Integers beat strings at the same position. -/
def smartCmp : List VTok → List VTok → Int
  | [], [] => 0
  | [], VTok.int _ :: _ => -1
  | [], VTok.str t :: _ => if isPrerelease t then 1 else -1
  | VTok.int _ :: _, [] => 1
  | VTok.str t :: _, [] => if isPrerelease t then -1 else 1
  | s :: ss, o :: os =>
      if s = o then smartCmp ss os
      else
        match s, o with
        | VTok.int a, VTok.int b => cmpInt a b
        | VTok.int _, VTok.str _ => 1
        | VTok.str _, VTok.int _ => -1
        | VTok.str a, VTok.str b => cmpChars a.toList b.toList

/-- `cmp(SmartVersion(a), SmartVersion(b))`: parse both then walk. -/
def smartVersionCmp (a b : String) : Option Int :=
  (version_to_tuple a).bind (fun s => (version_to_tuple b).map (fun o => smartCmp s o))

/-! ### Event / as_descrete_time (mvpa/misc/support.py, lines 424-511)

An `Event` is a Python dict; it is modelled as an association list with
unique keys, where `evSet` updates an existing key in place or appends a new
one, exactly like dict assignment.  Values are numbers or other objects. -/

/-- A dictionary value: a number, or any other object. -/
inductive EVal
  | num (q : ℚ)
  | raw (s : String)
  deriving DecidableEq

/-- An `Event`'s underlying dict. -/
abbrev Event := List (String × EVal)

/-- Dict lookup `e[k]`. -/
def evGet : Event → String → Option EVal
  | [], _ => none
  | (k', v) :: r, k => if k' = k then some v else evGet r k

/-- Dict assignment `e[k] = v`. -/
def evSet : Event → String → EVal → Event
  | [], k, v => [(k, v)]
  | (k', v') :: r, k, v => if k' = k then (k, v) :: r else (k', v') :: evSet r k v

/-- `Event.as_descrete_time(dt, storeoffset, offsetattr)` acting on the copy:
new onset `floor(onset/dt)`, optional offset `onset - new_onset*dt`, and, when
a `duration` key is present in the copy, new duration
`ceil((onset + duration)/dt) - new_onset`.  `none` models the exceptions the
Python call would raise (zero `dt`, missing or non-numeric fields). -/
def as_descrete_time (e : Event) (dt : ℚ) (storeoffset : Bool) (offsetattr : String) :
    Option Event :=
  if dt = 0 then none
  else
    match evGet e "onset" with
    | some (EVal.num onset) =>
        let newOnset : Int := ⌊onset / dt⌋
        let out1 := evSet e "onset" (EVal.num (newOnset : ℚ))
        let out2 := if storeoffset
          then evSet out1 offsetattr (EVal.num (onset - (newOnset : ℚ) * dt))
          else out1
        match evGet out2 "duration" with
        | some (EVal.num dur) =>
            some (evSet out2 "duration"
              (EVal.num ((⌈(onset + dur) / dt⌉ - newOnset : Int) : ℚ)))
        | some (EVal.raw _) => none
        | none => some out2
    | _ => none

/-- A store of `Event` objects; addresses are list positions.  This models
Python object identity: `out = copy(self)` allocates a fresh dict and every
assignment in `as_descrete_time` targets `out`, never `self`. -/
abbrev Store := List Event

/-- `e.as_descrete_time(...)` at address `a` of the store: reads the event,
builds the copy, and allocates it at a fresh address.  When the call raises,
the store's existing cells are likewise untouched. -/
def as_descrete_time_heap (σ : Store) (a : Nat) (dt : ℚ) (so : Bool) (oa : String) :
    Store × Option Nat :=
  match σ.get? a with
  | none => (σ, none)
  | some e =>
      match as_descrete_time e dt so oa with
      | none => (σ, none)
      | some out => (σ ++ [out], some σ.length)

/-! ### mask2slice (mvpa/misc/support.py, lines 546-583) -/

/-- The result: a `slice(start, stop, step)` or the original mask. -/
inductive SliceOrMask
  | sl (start stop : Nat) (step : Option Nat)
  | mask (m : List Bool)
  deriving DecidableEq

/-- `mask.nonzero()[0]`: indices of the true elements, ascending. -/
def trueIndicesGo : Nat → List Bool → List Nat
  | _, [] => []
  | i, b :: rest =>
      if b then i :: trueIndicesGo (i + 1) rest else trueIndicesGo (i + 1) rest

/-- Indices of the true elements of a mask. -/
def trueIndices (m : List Bool) : List Nat := trueIndicesGo 0 m

/-- `idx[1:] - idx[:-1]`: gaps between consecutive true indices. -/
def diffs : List Nat → List Nat
  | a :: b :: rest => (b - a) :: diffs (b :: rest)
  | _ => []

/-- `mask2slice(mask)`: empty masks raise `ValueError`; a mask with no true
element hits `idx[0]` on an empty index array and raises `IndexError`; more
than one distinct gap size returns the mask unchanged; otherwise a slice. -/
def mask2slice (m : List Bool) : Except String SliceOrMask :=
  if m.length = 0 then Except.error "Got an empty mask."
  else
    match trueIndices m with
    | [] => Except.error "index 0 is out of bounds for axis 0 with size 0"
    | i0 :: rest =>
      let idx := i0 :: rest
      let idxEnd := idx.getLastD 0 + 1
      if idx.length > 1 then
        let steps := (diffs idx).dedup
        if steps.length > 1 then Except.ok (SliceOrMask.mask m)
        else Except.ok (SliceOrMask.sl i0 idxEnd (some (steps.headD 0)))
      else Except.ok (SliceOrMask.sl i0 idxEnd none)

/-! ## Helper lemmas -/

theorem trueIndicesGo_eq_nil (m : List Bool) :
    ∀ i : Nat, (∀ b ∈ m, b = false) → trueIndicesGo i m = [] := by
  induction m with
  | nil => intro i _; rfl
  | cons b r ih =>
    intro i h
    have hb : b = false := h b (by simp)
    simp [trueIndicesGo, hb, ih (i + 1) (fun x hx => h x (by simp [hx]))]

theorem dedup_all_eq {g : Nat} :
    ∀ l : List Nat, l ≠ [] → (∀ d ∈ l, d = g) → l.dedup = [g] := by
  intro l
  induction l with
  | nil => intro h; cases h rfl
  | cons a t ih =>
    intro _ hall
    have ha : a = g := hall a (by simp)
    cases t with
    | nil => subst ha; simp
    | cons b t2 =>
      have hb : b = g := hall b (by simp)
      have ht : (b :: t2).dedup = [g] := ih (by simp) (fun d hd => hall d (by simp [hd]))
      rw [ha, List.dedup_cons_of_mem (show g ∈ b :: t2 by simp [hb])]
      exact ht

/-! ## Claim theorems -/

/-- Claim C5: `version_to_tuple('1.2.3') == (1, 2, 3)`;
`SmartVersion('1.0') < SmartVersion('1.0.1')` and
`SmartVersion('1.0-dev') < SmartVersion('1.0')` (Python 2 `a < b` holds iff
`a.__cmp__(b)` is negative, and the walk returns -1 in both cases; `-dev`
matches the pre-release marker pattern). -/
theorem version_cmp_c5 :
    version_to_tuple "1.2.3" = some [VTok.int 1, VTok.int 2, VTok.int 3]
    ∧ smartVersionCmp "1.0" "1.0.1" = some (-1)
    ∧ smartVersionCmp "1.0-dev" "1.0" = some (-1) := by
  refine ⟨?_, ?_, ?_⟩ <;> rfl

/-- Claim C10: a non-empty all-false mask makes `mask2slice` fail with the
out-of-bounds indexing error raised by `idx[0]` on the empty index array, and
the explicit `'Got an empty mask.'` validation error is raised exactly for
the zero-length mask. -/
theorem mask2slice_c10 :
    (∀ m : List Bool, m ≠ [] → (∀ b ∈ m, b = false) →
        mask2slice m = Except.error "index 0 is out of bounds for axis 0 with size 0")
    ∧ ∀ m : List Bool,
        (mask2slice m = Except.error "Got an empty mask." ↔ m = []) := by
  constructor
  · intro m hne hall
    have h0 : trueIndices m = [] := trueIndicesGo_eq_nil m 0 hall
    unfold mask2slice
    rw [if_neg (by simpa [List.length_eq_zero] using hne), h0]
  · intro m
    constructor
    · intro h
      by_contra hne
      unfold mask2slice at h
      rw [if_neg (by simpa [List.length_eq_zero] using hne)] at h
      rcases htr : trueIndices m with _ | ⟨i0, rest⟩ <;> rw [htr] at h
      · simp at h
      · dsimp only at h
        split_ifs at h
    · rintro rfl
      rfl

/-- Claim C10 witness: the theorem applied at `[false]` and at `[]`. -/
theorem mask2slice_c10_witness :
    mask2slice [false] = Except.error "index 0 is out of bounds for axis 0 with size 0"
    ∧ mask2slice [] = Except.error "Got an empty mask." :=
  ⟨mask2slice_c10.1 [false] (by decide) (by decide), (mask2slice_c10.2 []).mpr rfl⟩

theorem ds_c1_full : ds_full_matrix [[(0 : ℝ)], [0]] = [[0, 0], [0, 0]] := by
  norm_num [ds_full_matrix, euclidNorm]

theorem ds_c1_vec : get_vector_form [[(0 : ℝ), 0], [0, 0]] = [0, 0, 0] := by
  norm_num [get_vector_form, ds_sentinel, triuRows, zeroFirstN, selectNonzeroAbs]

/-- Claim C1 (counterexample): on the exemplar collection `[[0], [0]]` with
the euclidean metric the full matrix is indeed the 2-by-2 zero matrix, but
`get_vector_form()` does not return an empty vector, so the claimed
conjunction is false. -/
theorem dsmatrix_c1_counterexample :
    ¬ (ds_full_matrix [[(0 : ℝ)], [0]] = [[0, 0], [0, 0]]
       ∧ get_vector_form (ds_full_matrix [[(0 : ℝ)], [0]]) = []) := by
  rintro ⟨h1, h2⟩
  rw [h1, ds_c1_vec] at h2
  cases h2

/-- Claim C1 (amended): `DSMatrix` with metric `'euclidean'` on `[[0], [0]]`
yields the 2-by-2 all-zero full matrix, and `get_vector_form()` on it returns
the three-element vector `[0, 0, 0]`: the sentinel substitution (0 to -1)
happens before the triangle is taken, so the diagonal and upper-triangle
zero cells survive the nonzero filter and are restored to 0, rather than
being dropped. -/
theorem dsmatrix_c1_amended :
    ds_full_matrix [[(0 : ℝ)], [0]] = [[0, 0], [0, 0]]
    ∧ get_vector_form (ds_full_matrix [[(0 : ℝ)], [0]]) = [0, 0, 0] :=
  ⟨ds_c1_full, by rw [ds_c1_full]; exact ds_c1_vec⟩

theorem trueIndices_nil : trueIndices ([] : List Bool) = [] := rfl

/-- Claim C6: a mask whose true elements sit at one regular stride maps to
`slice(first, last + 1, stride)`, and a mask with at least two distinct gap
sizes is returned unchanged. -/
theorem mask2slice_c6 (m : List Bool) :
    (∀ g : Nat, 2 ≤ (trueIndices m).length → (∀ d ∈ diffs (trueIndices m), d = g) →
        mask2slice m = Except.ok (SliceOrMask.sl ((trueIndices m).headD 0)
          ((trueIndices m).getLastD 0 + 1) (some g)))
    ∧ (2 ≤ ((diffs (trueIndices m)).dedup).length →
        mask2slice m = Except.ok (SliceOrMask.mask m)) := by
  constructor
  · intro g h2 hall
    rcases htr : trueIndices m with _ | ⟨i0, rest⟩
    · rw [htr] at h2; simp at h2
    · rcases rest with _ | ⟨j, t⟩
      · rw [htr] at h2; simp at h2
      · have hmne : m ≠ [] := by
          intro h0; rw [h0, trueIndices_nil] at htr; cases htr
        have hdiff : diffs (i0 :: j :: t) ≠ [] := by simp [diffs]
        have hded : (diffs (i0 :: j :: t)).dedup = [g] := by
          apply dedup_all_eq _ hdiff
          rw [htr] at hall
          exact hall
        unfold mask2slice
        rw [if_neg (by simpa [List.length_eq_zero] using hmne), htr]
        dsimp only
        rw [if_pos (by simp), hded]
        simp

  · intro h2
    rcases htr : trueIndices m with _ | ⟨i0, rest⟩
    · rw [htr] at h2; simp [diffs] at h2
    · rcases rest with _ | ⟨j, t⟩
      · rw [htr] at h2; simp [diffs] at h2
      · have hmne : m ≠ [] := by
          intro h0; rw [h0, trueIndices_nil] at htr; cases htr
        unfold mask2slice
        rw [if_neg (by simpa [List.length_eq_zero] using hmne), htr]
        dsimp only
        rw [if_pos (by simp), if_pos (by rw [htr] at h2; omega)]

/-- Claim C6 witness: the theorem applied to the masks with true indices
`{1, 3, 5}` (stride 2) and `{0, 2, 3}` (gaps 2 and 1). -/
theorem mask2slice_c6_witness :
    mask2slice [false, true, false, true, false, true]
      = Except.ok (SliceOrMask.sl 1 6 (some 2))
    ∧ mask2slice [true, false, true, true]
      = Except.ok (SliceOrMask.mask [true, false, true, true]) :=
  ⟨(mask2slice_c6 [false, true, false, true, false, true]).1 2 (by decide) (by decide),
   (mask2slice_c6 [true, false, true, true]).2 (by decide)⟩

/-- Claim C7: `transform_with_boxcar` returns one reduced row per startpoint
(the reduction `fx` applied to the window of `boxlength` leading-axis slices
beginning at `startpoint + offset`) whenever every window lies within bounds;
on `data=[0,1,2,3,4,5]`, `startpoints=[0,2]`, `boxlength=2` with the default
mean reducer it returns `[0.5, 2.5]`; and it fails when some window lies
outside the bounds. -/
theorem twb_inbounds (α β : Type) (data : List α) (sps : List Int) (bl : Nat) (off : Int)
    (fx : List α → β) (h1 : 1 ≤ bl)
    (h2 : ∀ sp ∈ sps, 0 ≤ sp + off ∧ sp + off + (bl : Int) ≤ (data.length : Int)) :
    transform_with_boxcar data sps bl off fx =
      Except.ok (sps.map (fun sp => fx ((data.drop (sp + off).toNat).take bl))) := by
  unfold transform_with_boxcar
  rw [if_neg (by omega), if_neg]
  intro hany
  rw [List.any_eq_true] at hany
  obtain ⟨sp, hsp, hcond⟩ := hany
  have hb := h2 sp hsp
  simp only [Bool.or_eq_true, decide_eq_true_eq] at hcond
  omega

theorem twb_out_of_bounds (α β : Type) (data : List α) (sps : List Int) (bl : Nat)
    (off : Int) (fx : List α → β) (h1 : 1 ≤ bl)
    (hex : ∃ sp ∈ sps, sp + off < 0 ∨ (data.length : Int) < sp + off + (bl : Int)) :
    ∃ msg, transform_with_boxcar data sps bl off fx = Except.error msg := by
  unfold transform_with_boxcar
  rw [if_neg (by omega), if_pos]
  · exact ⟨_, rfl⟩
  · rw [List.any_eq_true]
    obtain ⟨sp, hsp, hviol⟩ := hex
    refine ⟨sp, hsp, ?_⟩
    simp only [Bool.or_eq_true, decide_eq_true_eq]
    omega

theorem transform_with_boxcar_c7 :
    (∀ (α β : Type) (data : List α) (sps : List Int) (bl : Nat) (off : Int)
        (fx : List α → β),
        1 ≤ bl → (∀ sp ∈ sps, 0 ≤ sp + off ∧ sp + off + (bl : Int) ≤ (data.length : Int)) →
        transform_with_boxcar data sps bl off fx =
          Except.ok (sps.map (fun sp => fx ((data.drop (sp + off).toNat).take bl))))
    ∧ transform_with_boxcar ([0, 1, 2, 3, 4, 5] : List ℚ) [0, 2] 2 0 meanQ
        = Except.ok [1 / 2, 5 / 2]
    ∧ (∀ (α β : Type) (data : List α) (sps : List Int) (bl : Nat) (off : Int)
        (fx : List α → β),
        1 ≤ bl → (∃ sp ∈ sps, sp + off < 0 ∨ (data.length : Int) < sp + off + (bl : Int)) →
        ∃ msg, transform_with_boxcar data sps bl off fx = Except.error msg) :=
  ⟨twb_inbounds, by with_unfolding_all rfl, twb_out_of_bounds⟩

/-- Claim C7 witness: the in-bounds part applied to the documented example,
and the failure part applied to a window running past the end of the data. -/
theorem transform_with_boxcar_c7_witness :
    transform_with_boxcar ([0, 1, 2, 3, 4, 5] : List ℚ) [0, 2] 2 0 meanQ
      = Except.ok [1 / 2, 5 / 2]
    ∧ ∃ msg, transform_with_boxcar ([0, 1] : List ℚ) [1] 2 0 meanQ = Except.error msg := by
  constructor
  · have h := transform_with_boxcar_c7.1 ℚ ℚ [0, 1, 2, 3, 4, 5] [0, 2] 2 0 meanQ
      (by decide) (by decide)
    exact h.trans (by with_unfolding_all rfl)
  · exact transform_with_boxcar_c7.2.2 ℚ ℚ [0, 1] [1] 2 0 meanQ (by decide)
      ⟨1, by decide, by right; decide⟩

theorem sum_const_list {c : ℚ} : ∀ l : List ℚ, (∀ x ∈ l, x = c) → l.sum = l.length * c := by
  intro l
  induction l with
  | nil => intro; simp
  | cons a t ih =>
    intro h
    have ha : a = c := h a (by simp)
    rw [List.sum_cons, ih (fun x hx => h x (by simp [hx])), List.length_cons, ha]
    push_cast
    ring

theorem zip_map_self_mem {α β : Type} (f : α → β) :
    ∀ (l : List α) (p : α × β), p ∈ l.zip (l.map f) → p.2 = f p.1 ∧ p.1 ∈ l := by
  intro l
  induction l with
  | nil => intro p hp; simp at hp
  | cons a t ih =>
    intro p hp
    rw [List.map_cons, List.zip_cons_cons] at hp
    rcases List.mem_cons.mp hp with h | h
    · subst h; exact ⟨rfl, by simp⟩
    · obtain ⟨h1, h2⟩ := ih p h
      exact ⟨h1, by simp [h2]⟩

theorem chisqCells_uniform_mem (obs : List (List ℚ)) (p : ℚ × ℚ)
    (hp : p ∈ chisqCells obs (expMat obs ExpSpec.uniform)) :
    p.1 ∈ obs.flatten
    ∧ p.2 = nobs obs / ((nrows obs : ℚ) * (ncols obs : ℚ)) := by
  unfold chisqCells expMat at hp
  rw [List.mem_flatten] at hp
  obtain ⟨inner, hinner, hpinner⟩ := hp
  rw [List.mem_map] at hinner
  obtain ⟨rr, hrr, rfl⟩ := hinner
  obtain ⟨hrr2, hrr1⟩ := zip_map_self_mem _ obs rr hrr
  rw [hrr2] at hpinner
  obtain ⟨h2, h1⟩ := zip_map_self_mem _ rr.1 p hpinner
  exact ⟨List.mem_flatten.mpr ⟨rr.1, hrr1, h1⟩, h2⟩

/-- Claim C3: for a well-formed observation matrix and a valid expected-value
specification, `chisquare` raises its `ValueError` exactly when some cell has
zero expected value but nonzero observed value; otherwise it returns. -/
theorem chisquare_c3 (obs : List (List ℚ)) (spec : ExpSpec)
    (hR : Rect obs) (hspec : specShapeOk obs spec = true) :
    (∃ msg, chisquare obs spec = Except.error msg) ↔
      ∃ p ∈ chisqCells obs (expMat obs spec), p.2 = 0 ∧ p.1 ≠ 0 := by
  unfold chisquare
  rw [if_pos hspec]
  by_cases hc : (chisqZeros obs spec).length ≠ 0 ∧ ∃ p ∈ chisqZeros obs spec, ¬ p.1 = 0
  · rw [if_pos hc]
    constructor
    · intro _
      obtain ⟨-, p, hp, hp1⟩ := hc
      unfold chisqZeros at hp
      have hmem := List.mem_filter.mp hp
      exact ⟨p, hmem.1, by simpa using hmem.2, hp1⟩
    · intro _
      exact ⟨_, rfl⟩
  · rw [if_neg hc]
    constructor
    · rintro ⟨msg, hmsg⟩
      exact Except.noConfusion hmsg
    · rintro ⟨p, hp, h2, h1⟩
      have hpz : p ∈ chisqZeros obs spec := by
        unfold chisqZeros
        exact List.mem_filter.mpr ⟨hp, by simpa using h2⟩
      refine absurd ⟨?_, ⟨p, hpz, h1⟩⟩ hc
      rw [Ne, List.length_eq_zero]
      exact List.ne_nil_of_mem hpz

/-- Claim C3 witness: an explicit expected matrix with a zero-expected,
nonzero-observed cell makes `chisquare` fail. -/
theorem chisquare_c3_witness :
    ∃ msg, chisquare [[1, 1], [0, 0]] (ExpSpec.explicit [[1, 0], [1, 1]])
      = Except.error msg :=
  (chisquare_c3 [[1, 1], [0, 0]] (ExpSpec.explicit [[1, 0], [1, 1]])
    (by decide) (by decide)).mpr (by decide)

/-- Claim C4: without zero-expected-nonzero-observed cells, `chisquare`
returns the Pearson statistic summed over the nonzero-expected cells only,
with the degrees of freedom handed to the tail probability equal to the
number of nonzero-expected cells minus one; and a perfectly uniform
observation matrix under `exp='uniform'` yields statistic 0. -/
theorem chisquare_c4 (obs : List (List ℚ)) (spec : ExpSpec)
    (hR : Rect obs) (hspec : specShapeOk obs spec = true)
    (hno : ∀ p ∈ chisqCells obs (expMat obs spec), p.2 = 0 → p.1 = 0) :
    chisquare obs spec =
      Except.ok (((chisqNZ obs spec).map (fun p => (p.1 - p.2) ^ 2 / p.2)).sum,
                 ((chisqNZ obs spec).length : Int) - 1)
    ∧ (spec = ExpSpec.uniform → ∀ c : ℚ, (∀ x ∈ obs.flatten, x = c) →
        ((chisqNZ obs spec).map (fun p => (p.1 - p.2) ^ 2 / p.2)).sum = 0) := by
  constructor
  · unfold chisquare
    rw [if_pos hspec, if_neg]
    rintro ⟨-, p, hp, hp1⟩
    unfold chisqZeros at hp
    have hmem := List.mem_filter.mp hp
    exact hp1 (hno p hmem.1 (by simpa using hmem.2))
  · rintro rfl c hall
    apply List.sum_eq_zero
    intro x hx
    rw [List.mem_map] at hx
    obtain ⟨p, hp, rfl⟩ := hx
    have hpc : p ∈ chisqCells obs (expMat obs ExpSpec.uniform) := by
      unfold chisqNZ at hp
      exact (List.mem_filter.mp hp).1
    obtain ⟨hmem1, hval2⟩ := chisqCells_uniform_mem obs p hpc
    have hlen : obs.length ≠ 0 := fun h => hR.1 (List.length_eq_zero.mp h)
    have hm0 : (nrows obs : ℚ) ≠ 0 := Nat.cast_ne_zero.mpr hlen
    have hn0 : (ncols obs : ℚ) ≠ 0 := Nat.cast_ne_zero.mpr hR.2.1
    have hrow : ∀ r ∈ obs, r.sum = (ncols obs : ℚ) * c := by
      intro r hr
      rw [sum_const_list r (fun x hx => hall x (List.mem_flatten.mpr ⟨r, hr, hx⟩)),
        hR.2.2 r hr]
      rfl
    have hnobs : nobs obs = (nrows obs : ℚ) * ((ncols obs : ℚ) * c) := by
      unfold nobs
      rw [sum_const_list (obs.map List.sum) ?hmap]
      · rw [List.length_map]; rfl
      · intro s hs
        rw [List.mem_map] at hs
        obtain ⟨r, hr, rfl⟩ := hs
        exact hrow r hr
    have hp2 : p.2 = c := by
      rw [hval2, hnobs, div_eq_iff (mul_ne_zero hm0 hn0)]
      ring
    have hp1 : p.1 = c := hall _ hmem1
    rw [hp1, hp2, sub_self]
    simp

/-- Claim C4 witness: the theorem applied to the uniform 2-by-2 table of
ones, giving statistic 0 with 3 degrees of freedom. -/
theorem chisquare_c4_witness :
    chisquare [[1, 1], [1, 1]] ExpSpec.uniform = Except.ok (0, 3) := by
  have h := chisquare_c4 [[1, 1], [1, 1]] ExpSpec.uniform (by decide) (by decide)
    (by with_unfolding_all decide)
  have h0 := h.2 rfl 1 (by decide)
  rw [h.1, h0]
  with_unfolding_all rfl

theorem evGet_evSet_self (e : Event) (k : String) (v : EVal) :
    evGet (evSet e k v) k = some v := by
  induction e with
  | nil => simp [evSet, evGet]
  | cons kv r ih =>
    obtain ⟨a, b⟩ := kv
    by_cases h : a = k <;> simp [evSet, evGet, h, ih]

theorem evGet_evSet_ne (e : Event) {k k2 : String} (v : EVal) (h : k ≠ k2) :
    evGet (evSet e k v) k2 = evGet e k2 := by
  induction e with
  | nil => simp [evSet, evGet, h]
  | cons kv r ih =>
    obtain ⟨a, b⟩ := kv
    by_cases ha : a = k
    · subst ha
      simp [evSet, evGet, h]
    · by_cases hb : a = k2 <;> simp [evSet, evGet, ha, hb, ih, Ne.symm h]

theorem asdt_spec (e : Event) (dt onset : ℚ) (so : Bool) (oa : String)
    (hdt0 : dt ≠ 0) (hon : evGet e "onset" = some (EVal.num onset)) :
    as_descrete_time e dt so oa =
      (let out2 := if so
          then evSet (evSet e "onset" (EVal.num ((⌊onset / dt⌋ : Int) : ℚ))) oa
                 (EVal.num (onset - ((⌊onset / dt⌋ : Int) : ℚ) * dt))
          else evSet e "onset" (EVal.num ((⌊onset / dt⌋ : Int) : ℚ));
       match evGet out2 "duration" with
       | some (EVal.num dur) => some (evSet out2 "duration"
           (EVal.num ((⌈(onset + dur) / dt⌉ - ⌊onset / dt⌋ : Int) : ℚ)))
       | some (EVal.raw _) => none
       | none => some out2) := by
  unfold as_descrete_time
  rw [if_neg hdt0, hon]

/-- Claim C8: with a positive grid spacing and a numeric onset (and numeric
duration, when one is present), `as_descrete_time` with the default offset
attribute returns an event whose onset is `floor(onset/dt)`, whose duration,
when the original has one, is `ceil((onset+duration)/dt) - floor(onset/dt)`,
and whose `offset`, when `storeoffset` is requested, is the original onset
minus the discretized onset times `dt`. -/
theorem as_descrete_time_c8 (e : Event) (dt onset : ℚ) (so : Bool)
    (hdt : 0 < dt)
    (hon : evGet e "onset" = some (EVal.num onset))
    (hdur : evGet e "duration" = none ∨ ∃ d, evGet e "duration" = some (EVal.num d)) :
    ∃ out, as_descrete_time e dt so "offset" = some out
      ∧ evGet out "onset" = some (EVal.num ((⌊onset / dt⌋ : Int) : ℚ))
      ∧ (∀ d, evGet e "duration" = some (EVal.num d) →
          evGet out "duration"
            = some (EVal.num ((⌈(onset + d) / dt⌉ - ⌊onset / dt⌋ : Int) : ℚ)))
      ∧ (so = true →
          evGet out "offset"
            = some (EVal.num (onset - ((⌊onset / dt⌋ : Int) : ℚ) * dt))) := by
  have hdt0 : dt ≠ 0 := ne_of_gt hdt
  rw [asdt_spec e dt onset so "offset" hdt0 hon]
  set o2 : Event := if so
      then evSet (evSet e "onset" (EVal.num ((⌊onset / dt⌋ : Int) : ℚ))) "offset"
             (EVal.num (onset - ((⌊onset / dt⌋ : Int) : ℚ) * dt))
      else evSet e "onset" (EVal.num ((⌊onset / dt⌋ : Int) : ℚ)) with ho2
  have h2dur : evGet o2 "duration" = evGet e "duration" := by
    rw [ho2]
    cases so <;> simp only [if_true, if_false, Bool.false_eq_true, ite_true, ite_false]
    · exact evGet_evSet_ne e _ (by decide)
    · rw [evGet_evSet_ne _ _ (by decide), evGet_evSet_ne e _ (by decide)]
  have h2on : evGet o2 "onset" = some (EVal.num ((⌊onset / dt⌋ : Int) : ℚ)) := by
    rw [ho2]
    cases so <;> simp only [if_true, if_false, Bool.false_eq_true, ite_true, ite_false]
    · exact evGet_evSet_self e _ _
    · rw [evGet_evSet_ne _ _ (by decide)]
      exact evGet_evSet_self e _ _
  have h2off : so = true →
      evGet o2 "offset" = some (EVal.num (onset - ((⌊onset / dt⌋ : Int) : ℚ) * dt)) := by
    intro hso
    rw [ho2, hso]
    simp only [ite_true]
    exact evGet_evSet_self _ _ _
  rcases hdur with hnone | ⟨d, hd⟩
  · refine ⟨o2, ?_, h2on, ?_, h2off⟩
    · show (match evGet o2 "duration" with
        | some (EVal.num dur) => some (evSet o2 "duration"
            (EVal.num ((⌈(onset + dur) / dt⌉ - ⌊onset / dt⌋ : Int) : ℚ)))
        | some (EVal.raw _) => none
        | none => some o2) = some o2
      rw [h2dur, hnone]
    · intro d hd2
      rw [hnone] at hd2
      cases hd2
  · refine ⟨evSet o2 "duration" (EVal.num ((⌈(onset + d) / dt⌉ - ⌊onset / dt⌋ : Int) : ℚ)),
      ?_, ?_, ?_, ?_⟩
    · show (match evGet o2 "duration" with
        | some (EVal.num dur) => some (evSet o2 "duration"
            (EVal.num ((⌈(onset + dur) / dt⌉ - ⌊onset / dt⌋ : Int) : ℚ)))
        | some (EVal.raw _) => none
        | none => some o2) = _
      rw [h2dur, hd]
    · rw [evGet_evSet_ne _ _ (by decide)]
      exact h2on
    · intro d2 hd2
      rw [hd] at hd2
      injection hd2 with hd3
      cases hd3
      exact evGet_evSet_self _ _ _
    · intro hso
      rw [evGet_evSet_ne _ _ (by decide)]
      exact h2off hso

/-- Claim C8 witness: the theorem applied to the event
`{onset: 3, duration: 3}` with `dt = 2` and `storeoffset=True`. -/
theorem as_descrete_time_c8_witness :
    ∃ out, as_descrete_time [("onset", EVal.num 3), ("duration", EVal.num 3)] 2 true "offset"
      = some out
      ∧ evGet out "onset" = some (EVal.num ((⌊(3 : ℚ) / 2⌋ : Int) : ℚ))
      ∧ (∀ d, evGet [("onset", EVal.num 3), ("duration", EVal.num 3)] "duration"
            = some (EVal.num d) →
          evGet out "duration"
            = some (EVal.num ((⌈((3 : ℚ) + d) / 2⌉ - ⌊(3 : ℚ) / 2⌋ : Int) : ℚ)))
      ∧ (true = true →
          evGet out "offset"
            = some (EVal.num (3 - ((⌊(3 : ℚ) / 2⌋ : Int) : ℚ) * 2))) :=
  as_descrete_time_c8 [("onset", EVal.num 3), ("duration", EVal.num 3)] 2 3 true
    (by norm_num) (by decide) (Or.inr ⟨3, by decide⟩)

/-- Claim C9: `as_descrete_time` never mutates the receiver: in the store
model the cell holding the original event is unchanged by the call, and the
address of the returned event, when the call returns one, is distinct from
the receiver's (the copy is a fresh object). -/
theorem as_descrete_time_c9 (σ : Store) (a : Nat) (dt : ℚ) (so : Bool) (oa : String) :
    (as_descrete_time_heap σ a dt so oa).1.get? a = σ.get? a
    ∧ ∀ a2, (as_descrete_time_heap σ a dt so oa).2 = some a2 → a2 ≠ a := by
  cases hget : σ[a]? with
  | none =>
    simp [as_descrete_time_heap, List.get?_eq_getElem?, hget]
  | some e =>
    cases hflat : as_descrete_time e dt so oa with
    | none =>
      simp [as_descrete_time_heap, List.get?_eq_getElem?, hget, hflat]
    | some out =>
      have hlt : a < σ.length := by
        by_contra hge
        rw [List.getElem?_eq_none (by omega)] at hget
        cases hget
      simp only [as_descrete_time_heap, List.get?_eq_getElem?, hget, hflat]
      constructor
      · rw [List.getElem?_append_left hlt]
        exact hget
      · intro a2 ha2
        have h2 := Option.some.inj ha2
        omega

/-- Claim C9 witness: the frame theorem applied to a concrete one-event
store; the returned address 1 differs from the receiver's address 0. -/
theorem as_descrete_time_c9_witness :
    (as_descrete_time_heap [[("onset", EVal.num 1)]] 0 1 false "offset").1.get? 0
      = ([[("onset", EVal.num 1)]] : Store).get? 0
    ∧ (1 : Nat) ≠ 0 :=
  ⟨(as_descrete_time_c9 [[("onset", EVal.num 1)]] 0 1 false "offset").1,
   (as_descrete_time_c9 [[("onset", EVal.num 1)]] 0 1 false "offset").2 1
     (by with_unfolding_all rfl)⟩

end PyMVPA
